import Mathlib

/-!
Verification of the Slack raw-data renderer content script
(`content-script.js` together with the error-handling variant of the
script found in the unnamed source part that defines
`shouldProcessAsMarkdown`, `handleMixedContent`,
`handleNonMarkdownContent`, `handleParsingError` and its
`safeParseMarkdown`).

Modelling conventions:
* JS strings are Lean `String`s, processed as `List Char` so that every
  recursion is structural and kernel-evaluable.
* JS numbers are `ℚ`.  The only numeric literals in the verified code
  are 0.15, 0.1, 0.3, 0.6, 0.7 and 1.0, and the only comparisons are
  strict ones against 0.1, 0.3 and 0.6.  The reachable IEEE-754 sums
  (0.15·k, optionally +0.1 and +0.1, capped at 1.0) decide those
  comparisons exactly as the rational values do, so the rational model
  is observationally faithful.
* JS exceptions are `Except`; a caught exception is a matched `.error`.
* A JS value that may be a non-string is a `JSValue`.
* The ambient `window.location.href` read by `extractFileExtension`
  (and hence by `analyzeContentType`) is passed as an explicit `loc`
  argument of the embedding.
-/

namespace SlackMD

/-- The character class of the JavaScript regex `\s` (also the set
stripped by `String.prototype.trim`): tab, line feed, vertical tab,
form feed, carriage return, space, NBSP, the Unicode space separators,
the line/paragraph separators, narrow NBSP, medium mathematical space,
ideographic space and the BOM. -/
def jsWhitespace (c : Char) : Bool :=
  decide (c = ' ' ∨ c = '\t' ∨ c = '\n' ∨ c = '\x0b' ∨ c = '\x0c' ∨ c = '\r' ∨
    c.toNat = 0xa0 ∨ c.toNat = 0x1680 ∨ (0x2000 ≤ c.toNat ∧ c.toNat ≤ 0x200a) ∨
    c.toNat = 0x2028 ∨ c.toNat = 0x2029 ∨ c.toNat = 0x202f ∨ c.toNat = 0x205f ∨
    c.toNat = 0x3000 ∨ c.toNat = 0xfeff)

/-- The backtick character (written via its code point to keep the
source free of backtick literals). -/
def btick : Char := Char.ofNat 96

/-- The character class `[a-zA-Z0-9]` of the file-extension regexes. -/
def isAsciiAlnum (c : Char) : Bool := c.isAlpha || c.isDigit

/-- JavaScript `String.prototype.trim`. -/
def jsTrim (l : List Char) : List Char :=
  ((l.dropWhile jsWhitespace).reverse.dropWhile jsWhitespace).reverse

/-- Split on a separator character, JS `String.prototype.split(sep)`:
`splitOnChar '\n' "a\n\nb" = ["a", "", "b"]` and the split of the
empty string is `[""]`. -/
def splitOnChar (sep : Char) : List Char → List (List Char)
  | [] => [[]]
  | c :: r =>
    if c = sep then [] :: splitOnChar sep r
    else
      match splitOnChar sep r with
      | [] => [[c]]
      | l :: ls => (c :: l) :: ls

/-- The lines of a string, JS `content.split('\n')`. -/
def splitLines (l : List Char) : List (List Char) := splitOnChar '\n' l

/-- The suffixes of `l` that start immediately after a `'\n'`. -/
def suffixesAfterNewlines : List Char → List (List Char)
  | [] => []
  | c :: r =>
    if c = '\n' then r :: suffixesAfterNewlines r else suffixesAfterNewlines r

/-- The suffixes of `l` beginning at the positions where the `/m`-flag
anchor `^` can match: the start of the string and the position after
every line feed. -/
def lineStartSuffixes (l : List Char) : List (List Char) :=
  l :: suffixesAfterNewlines l

/-- Does `l` start with the pattern `p` (character-wise)? -/
def startsWithChars : List Char → List Char → Bool
  | [], _ => true
  | _ :: _, [] => false
  | p :: ps, c :: cs => p = c && startsWithChars ps cs

/-- Does `l` contain `pat` as a contiguous substring? -/
def containsChars (pat : List Char) : List Char → Bool
  | [] => startsWithChars pat []
  | c :: cs => startsWithChars pat (c :: cs) || containsChars pat cs

/-- Number of occurrences of the character `c` in `l`. -/
def countChar (c : Char) (l : List Char) : Nat := (l.filter (· = c)).length

/-!
The eight feature detectors of `analyzeContentType`.  Each is a direct
decision procedure for "does the regex match somewhere in the string",
derived from the regex semantics (no `s` flag, `m` flag where noted;
`.` never matches `'\n'`; `\s` may match `'\n'`; `$` under `/m` matches
at the end of the string or right before a `'\n'`).
-/

/-- Helper of `wsGapThenContent`: after at least one whitespace
character, either the next character is a non-newline (the `.+`
starts), or it is further whitespace and we continue. -/
def wsGapContinue : List Char → Bool
  | [] => false
  | c :: r => (!(c = '\n')) || (jsWhitespace c && wsGapContinue r)

/-- Decision procedure for the regex fragment `\s+.+$` under `/m`,
starting at the head of `l`: there must be `m ≥ 1` whitespace
characters followed by a character other than `'\n'` (the greedy `.+`
then runs to its line end, where `$` always holds).  Note the `\s` run
may cross newlines. -/
def wsGapThenContent : List Char → Bool
  | [] => false
  | c :: r => jsWhitespace c && wsGapContinue r

/-- Helper of `headersAt`: consume the maximal `'#'` run, counting. -/
def headersHash : List Char → Nat → Bool
  | c :: r, n => if c = '#' then headersHash r (n + 1)
                 else decide (1 ≤ n ∧ n ≤ 6) && wsGapThenContent (c :: r)
  | [], _ => false

/-- HEADERS `/^#{1,6}\s+.+$/m` at one line start: a run of `k`
`'#'`-characters with `1 ≤ k ≤ 6` (a longer run leaves a `'#'` where
`\s` is required, so runs of 7+ never match), then `\s+.+$`. -/
def headersAt (l : List Char) : Bool :=
  headersHash l 0

/-- LISTS `/^[\s]*[-*+]\s+.+$/m` at one line start: optional
whitespace (the bullet is not whitespace, so the `[\s]*` run is forced
to be maximal), a bullet, then `\s+.+$`. -/
def listsAt (l : List Char) : Bool :=
  match l.dropWhile jsWhitespace with
  | [] => false
  | c :: r => decide (c = '-' ∨ c = '*' ∨ c = '+') && wsGapThenContent r

/-- BLOCKQUOTES `/^>\s+.+$/m` at one line start. -/
def blockquotesAt (l : List Char) : Bool :=
  match l with
  | [] => false
  | c :: r => c = '>' && wsGapThenContent r

/-- Helper of `hrAt`: consume the `[-*_]` run, then require line end. -/
def hrRun : List Char → Nat → Bool
  | c :: r, n =>
    if c = '-' ∨ c = '*' ∨ c = '_' then hrRun r (n + 1)
    else decide (3 ≤ n) && c = '\n'
  | [], n => decide (3 ≤ n)

/-- HORIZONTAL_RULES `/^[-*_]{3,}$/m` at one line start: a maximal run
of `-`/`*`/`_` of length at least 3 reaching the end of the line
(stopping the run early leaves a rule character where `$` must hold,
so only the maximal run can match). -/
def hrAt (l : List Char) : Bool :=
  hrRun l 0

/-- Lift an at-a-line-start matcher to the whole string (the `^` of a
`/m` regex can match at the start and after every line feed). -/
def anyLineStart (p : List Char → Bool) (l : List Char) : Bool :=
  (lineStartSuffixes l).any p

/-- HEADERS detector `/^#{1,6}\s+.+$/m`. -/
def headersDet (l : List Char) : Bool := anyLineStart headersAt l

/-- LISTS detector `/^[\s]*[-*+]\s+.+$/m`. -/
def listsDet (l : List Char) : Bool := anyLineStart listsAt l

/-- BLOCKQUOTES detector `/^>\s+.+$/m`. -/
def blockquotesDet (l : List Char) : Bool := anyLineStart blockquotesAt l

/-- HORIZONTAL_RULES detector `/^[-*_]{3,}$/m`. -/
def hrDet (l : List Char) : Bool := anyLineStart hrAt l

/-- TABLES detector `/\|.*\|.*\|/`: since `.` cannot match a newline,
the regex matches iff some line contains at least three pipes. -/
def tablesDet (l : List Char) : Bool :=
  (splitLines l).any (fun line => decide (3 ≤ countChar '|' line))

/-- Scan for a triple backtick; on success return the suffix after it. -/
def findTripleBt : List Char → Option (List Char)
  | [] => none
  | c :: r =>
    if c = btick && startsWithChars [btick, btick] r then some (r.drop 2)
    else findTripleBt r

/-- First alternative of CODE_BLOCKS: two disjoint triple-backtick
occurrences (the lazy `[\s\S]*?` between them matches anything). -/
def fencedCodeDet (l : List Char) : Bool :=
  match findTripleBt l with
  | some r => (findTripleBt r).isSome
  | none => false

/-- Helper of `inlineCodeAfter`: look for the closing backtick with
only non-backtick, non-newline characters before it. -/
def inlineCodeClose : List Char → Bool
  | [] => false
  | c :: r => c = btick || ((!(c = '\n')) && inlineCodeClose r)

/-- After an opening backtick: at least one character that is neither
a backtick nor a newline, then such characters up to a closing
backtick. -/
def inlineCodeAfter : List Char → Bool
  | [] => false
  | c :: r => (!(c = btick)) && (!(c = '\n')) && inlineCodeClose r

/-- Second alternative of CODE_BLOCKS: an inline code span, a backtick
followed by one or more non-backtick non-newline characters and a
closing backtick. -/
def inlineCodeDet : List Char → Bool
  | [] => false
  | c :: r => (c = btick && inlineCodeAfter r) || inlineCodeDet r

/-- CODE_BLOCKS detector: triple-backtick fence or inline code span. -/
def codeBlocksDet (l : List Char) : Bool := fencedCodeDet l || inlineCodeDet l

/-- Helper: scan to the first `')'` over non-`')'` characters. -/
def linkParenClose : List Char → Bool
  | [] => false
  | c :: r => c = ')' || linkParenClose r

/-- At least one non-`')'` character, then a `')'`. -/
def linkParenBody : List Char → Bool
  | [] => false
  | c :: r => (!(c = ')')) && linkParenClose r

/-- The `\(([^)]+)\)` tail of the LINKS regex. -/
def linkParen : List Char → Bool
  | [] => false
  | c :: r => c = '(' && linkParenBody r

/-- Helper: scan to the first `']'` and require `(...)` after it (the
body class `[^\]]+` cannot cross a `']'`, so the first `']'` is the
only candidate for the closing bracket). -/
def linkBracketClose : List Char → Bool
  | [] => false
  | c :: r => if c = ']' then linkParen r else linkBracketClose r

/-- After `'['`: at least one non-`']'` character, then the closing
bracket part. -/
def linkAfterBracket : List Char → Bool
  | [] => false
  | c :: r => (!(c = ']')) && linkBracketClose r

/-- LINKS detector `/\[([^\]]+)\]\(([^)]+)\)/` (the character classes
do not exclude newlines, so a match may span lines). -/
def linksDet : List Char → Bool
  | [] => false
  | c :: r => (c = '[' && linkAfterBracket r) || linksDet r

/-- An emphasis marker character, `*` or `_`. -/
def isMarkerChar (c : Char) : Bool := c = '*' || c = '_'

/-- Helper of `emphasisDet`: a non-marker body character, then any
later marker (the characters before the first later marker are
automatically non-markers). -/
def emphasisAfter : List Char → Bool
  | [] => false
  | c :: r => (!(isMarkerChar c)) && r.any isMarkerChar

/-- EMPHASIS detector
`(\*\*|__)[^*_]+(\*\*|__)` or `(\*|_)[^*_]+(\*|_)`.  Every match of the
double-delimiter alternative contains a match of the single-delimiter
alternative (its two inner marker characters delimit the same
marker-free body), so the regex matches iff some marker character is
followed by a non-marker character after which another marker occurs;
scanning to the first later marker keeps the body marker-free. -/
def emphasisDet : List Char → Bool
  | [] => false
  | c :: r => (isMarkerChar c && emphasisAfter r) || emphasisDet r

/-- The pattern table of `analyzeContentType`, in `Object.entries`
order, with the feature names already lowercased as pushed by the
loop. -/
def mdPatterns : List (String × (List Char → Bool)) :=
  [("headers", headersDet), ("lists", listsDet), ("code_blocks", codeBlocksDet),
   ("links", linksDet), ("emphasis", emphasisDet), ("blockquotes", blockquotesDet),
   ("horizontal_rules", hrDet), ("tables", tablesDet)]

/-- JS `String.prototype.toLowerCase`, restricted to ASCII (every
string the verified code lowercases is an ASCII extension or keyword). -/
def lowerStr (s : String) : String := ⟨s.data.map Char.toLower⟩

/-- JS `String.prototype.toUpperCase`, restricted to ASCII. -/
def upperStr (s : String) : String := ⟨s.data.map Char.toUpper⟩

/-- A JavaScript value as far as the verified code inspects one: the
code only ever asks `typeof v === 'string'`, truthiness, and uses the
string itself.  Non-string objects and arrays are opaque tags. -/
inductive JSValue where
  | null
  | undefined
  | num (n : ℚ)
  | str (s : String)
  | jsBool (b : Bool)
  | object
  | array
deriving DecidableEq, Repr

/-- Is the value a string (JS `typeof v === 'string'`)? -/
def JSValue.isStr : JSValue → Bool
  | .str _ => true
  | _ => false

/-!
Model of the browser's WHATWG `new URL(...)` constructor, restricted
to the absolute `scheme://host[:port]/path?query#hash` shape that the
verified predicates consult (`hostname`, `pathname`, `search`).
Userinfo, IPv6 hosts and percent-encoding are outside the model; a
string that does not have the `scheme://host` shape fails to parse,
standing for the constructor throwing. -/
structure URLParts where
  hostname : String
  pathname : String
  search : String
deriving DecidableEq, Repr

/-- Parse a URL string; `none` models `new URL(url)` throwing. -/
def parseURL (s : String) : Option URLParts :=
  let cs := s.data
  let scheme := cs.takeWhile (fun c => c.isAlpha)
  match scheme, cs.drop scheme.length with
  | _ :: _, ':' :: '/' :: '/' :: r =>
    let auth := r.takeWhile (fun c => !(c = '/' || c = '?' || c = '#'))
    let host := auth.takeWhile (fun c => !(c = ':'))
    if host.isEmpty then none
    else
      let afterAuth := r.drop auth.length
      let path := afterAuth.takeWhile (fun c => !(c = '?' || c = '#'))
      let pathname := if path.isEmpty then ['/'] else path
      let search := (afterAuth.drop path.length).takeWhile (fun c => !(c = '#'))
      some ⟨⟨host.map Char.toLower⟩, ⟨pathname⟩, ⟨if search = ['?'] then [] else search⟩⟩
  | _, _ => none

/-- First match of `/\.([a-zA-Z0-9]+)$/`-style scanning (also used for
`/\.([a-zA-Z0-9]+)(?:[?#]|$)/` on a `pathname`, which cannot contain
`'?'` or `'#'`): the first dot followed by one or more alphanumerics
running to the end of the string; returns the captured run. -/
def extScan : List Char → Option (List Char)
  | [] => none
  | c :: r =>
    if c = '.' && !r.isEmpty && r.all isAsciiAlnum then some r else extScan r

/-- The key/value pairs of a query string, modelling `URLSearchParams`
iteration (percent-decoding not modelled; none of the verified
properties depends on it). -/
def queryPairs (search : List Char) : List (List Char × List Char) :=
  let q := match search with
    | '?' :: r => r
    | l => l
  (splitOnChar '&' q).map
    (fun part =>
      (part.takeWhile (fun c => !(c = '=')),
       part.drop ((part.takeWhile (fun c => !(c = '='))).length + 1)))

/-- The query-parameter fallback of `extractFileExtension`: the first
parameter whose key contains `filename` or `name` and whose value ends
in `.ext` yields the lowercased extension. -/
def queryExtFind : List (List Char × List Char) → Option String
  | [] => none
  | (k, v) :: rest =>
    if containsChars "filename".data k || containsChars "name".data k then
      match extScan v with
      | some ext => some ⟨ext.map Char.toLower⟩
      | none => queryExtFind rest
    else queryExtFind rest

/-- `extractFileExtension` of the content script.  The source reads
`window.location.href`; the embedding takes that ambient string as the
explicit argument `loc`.  The `catch` branch (unparseable URL) returns
`null`. -/
def extractFileExtension (loc : String) : Option String :=
  match parseURL loc with
  | none => none
  | some u =>
    match extScan u.pathname.data with
    | some ext => some ⟨ext.map Char.toLower⟩
    | none => queryExtFind (queryPairs u.search.data)

/-- `isMarkdownExtension`: `null`/empty is falsy, otherwise membership
of the lowercased extension in the fixed allow-list. -/
def isMarkdownExtension : Option String → Bool
  | none => false
  | some e =>
    if e = "" then false
    else ["md", "markdown", "mdown", "mkd", "mkdn"].contains (lowerStr e)

/-- The analysis record returned by `analyzeContentType`. -/
structure ContentAnalysis where
  isMarkdown : Bool
  confidence : ℚ
  detectedFeatures : List String
  fileExtension : Option String
deriving DecidableEq, Repr

/-- The definitive negative analysis returned for non-string or empty
input. -/
def negativeAnalysis : ContentAnalysis :=
  { isMarkdown := false, confidence := 0, detectedFeatures := [], fileExtension := none }

/-- The `for (const [feature, pattern] of Object.entries(patterns))`
loop: push the lowercased name and add 0.15 for every matching
pattern. -/
def featureFold (cs : List Char) : List String × ℚ :=
  mdPatterns.foldl
    (fun acc p => if p.2 cs then (acc.1 ++ [p.1], acc.2 + 0.15) else acc)
    ([], 0)

/-- The `nonEmptyLines`/`firstLine` heuristic block of
`analyzeContentType`: split on `'\n'`, keep the lines whose trim is
non-empty, and test whether the first one starts with `'#'` (`false`
when there is none, matching the guarded `if` in the source). -/
def firstNonBlankStartsHash (cs : List Char) : Bool :=
  match (splitLines cs).filter (fun line => 0 < (jsTrim line).length) with
  | [] => false
  | first :: _ => startsWithChars ['#'] first

/-- `analyzeContentType` of the content script.  Total: the source
validates its input before touching it and throws nowhere.  `loc` is
the ambient `window.location.href` consulted by the
`extractFileExtension()` call in the returned record. -/
def analyzeContentType (loc : String) (content : JSValue) : ContentAnalysis :=
  match content with
  | .str s =>
    if s = "" then negativeAnalysis
    else
      let fc := featureFold s.data
      let conf1 := if firstNonBlankStartsHash s.data then fc.2 + 0.1 else fc.2
      let conf2 := if 2 ≤ fc.1.length then conf1 + 0.1 else conf1
      let conf3 := min conf2 1
      { isMarkdown := decide (conf3 > 0.1)
        confidence := conf3
        detectedFeatures := fc.1
        fileExtension := extractFileExtension loc }
  | _ => negativeAnalysis

/-- `detectSlackRawUrl`: non-string or empty input is rejected up
front, an unparseable URL is caught (`parseURL` returning `none`) and
yields `false`; otherwise the fixed host/path-prefix check. -/
def detectSlackRawUrl (url : JSValue) : Bool :=
  match url with
  | .str s =>
    if s = "" then false
    else
      match parseURL s with
      | some u =>
        u.hostname = "files.slack.com" &&
          startsWithChars "/files-pri/".data u.pathname.data
      | none => false
  | _ => false

/-!
Specification-level descriptions of the classifier output, used to
state the claims: the list of matched feature names, the
first-non-blank-line heuristic, and the closed confidence formula.
-/

/-- The names of the detectors that match `cs`, in table order. -/
def matchedNames (cs : List Char) : List String :=
  (mdPatterns.filter (fun p => p.2 cs)).map Prod.fst

/-- The closed confidence formula: 0.15 per matched feature, +0.1 for
a leading header line, +0.1 for two or more features, capped at 1. -/
def rawConfidence (k : ℕ) (h : Bool) : ℚ :=
  min ((0.15 : ℚ) * k + (if h then 0.1 else 0) + (if 2 ≤ k then 0.1 else 0)) 1

theorem featureFold_foldl (l : List (String × (List Char → Bool))) (cs : List Char)
    (acc : List String × ℚ) :
    l.foldl (fun acc p => if p.2 cs then (acc.1 ++ [p.1], acc.2 + 0.15) else acc) acc =
      (acc.1 ++ (l.filter (fun p => p.2 cs)).map Prod.fst,
       acc.2 + 0.15 * ((l.filter (fun p => p.2 cs)).length : ℚ)) := by
  induction l generalizing acc with
  | nil => simp
  | cons p t ih =>
    cases hp : p.2 cs with
    | false => simp [List.foldl_cons, hp, List.filter_cons, ih]
    | true =>
      simp only [List.foldl_cons, hp, List.filter_cons, ite_true, ih]
      refine Prod.ext ?_ ?_
      · simp
      · simp only [List.length_cons]
        push_cast
        ring

theorem featureFold_eq (cs : List Char) :
    featureFold cs = (matchedNames cs, 0.15 * ((matchedNames cs).length : ℚ)) := by
  unfold featureFold matchedNames
  rw [featureFold_foldl]
  simp

theorem rawConfidence_steps (k : ℕ) (h : Bool) :
    min (if 2 ≤ k then (if h then 0.15 * (k : ℚ) + 0.1 else 0.15 * (k : ℚ)) + 0.1
         else (if h then 0.15 * (k : ℚ) + 0.1 else 0.15 * (k : ℚ))) 1 =
      rawConfidence k h := by
  unfold rawConfidence
  cases h <;> split_ifs <;> norm_num

/-- The classifier on a non-empty string, expressed through the closed
confidence formula. -/
theorem analyzeContentType_str (loc : String) (s : String) (hs : ¬ s = "") :
    analyzeContentType loc (.str s) =
      { isMarkdown :=
          decide (rawConfidence (matchedNames s.data).length (firstNonBlankStartsHash s.data) > 0.1)
        confidence := rawConfidence (matchedNames s.data).length (firstNonBlankStartsHash s.data)
        detectedFeatures := matchedNames s.data
        fileExtension := extractFileExtension loc } := by
  unfold analyzeContentType
  simp only [hs, ite_false, featureFold_eq]
  rw [rawConfidence_steps]

theorem rawConfidence_nonneg (k : ℕ) (h : Bool) : 0 ≤ rawConfidence k h := by
  unfold rawConfidence
  have hk : (0 : ℚ) ≤ 0.15 * k := by positivity
  split_ifs <;> exact le_min (by linarith) (by norm_num)

theorem rawConfidence_mono (k1 k2 : ℕ) (h1 h2 : Bool) (hk : k1 < k2) :
    rawConfidence k1 h1 ≤ rawConfidence k2 h2 := by
  unfold rawConfidence
  apply min_le_min _ le_rfl
  have hk' : (k1 : ℚ) + 1 ≤ (k2 : ℚ) := by exact_mod_cast hk
  cases h1 <;> cases h2 <;> split_ifs <;> first | omega | linarith

theorem matchedNames_nodup (cs : List Char) : (matchedNames cs).Nodup := by
  have hbase : (mdPatterns.map Prod.fst).Nodup := by decide
  exact ((List.filter_sublist (p := fun p => p.2 cs) mdPatterns).map Prod.fst).nodup hbase

/-- C1.  For a non-string or empty input, `analyzeContentType` returns
the definitive negative analysis (and, being a total Lean function,
throws nothing); for a non-empty string, the confidence is 0.15 times
the number of matching detectors of the eight-entry pattern table,
plus 0.10 when the first non-blank line begins with `'#'`, plus 0.10
when two or more features matched, clamped to the interval [0, 1],
and `isMarkdown` holds exactly when the confidence exceeds 0.1. -/
theorem claim1_confidence_formula :
    (∀ (loc : String) (v : JSValue), (∀ s, v = JSValue.str s → s = "") →
      analyzeContentType loc v = negativeAnalysis) ∧
    (∀ (loc : String) (s : String), ¬ s = "" →
      (analyzeContentType loc (.str s)).confidence =
          max 0 (min (0.15 * ((matchedNames s.data).length : ℚ)
            + (if firstNonBlankStartsHash s.data then 0.1 else 0)
            + (if 2 ≤ (matchedNames s.data).length then 0.1 else 0)) 1) ∧
        ((analyzeContentType loc (.str s)).isMarkdown = true ↔
          (analyzeContentType loc (.str s)).confidence > 0.1) ∧
        (analyzeContentType loc (.str s)).detectedFeatures = matchedNames s.data) := by
  constructor
  · intro loc v hv
    cases v with
    | str s => rw [hv s rfl]; rfl
    | null => rfl
    | undefined => rfl
    | num n => rfl
    | jsBool b => rfl
    | object => rfl
    | array => rfl
  · intro loc s hs
    rw [analyzeContentType_str loc s hs]
    refine ⟨?_, ?_, rfl⟩
    · exact (max_eq_right (rawConfidence_nonneg _ _)).symm
    · simp [decide_eq_true_iff]

/-- Closed-form instance of `claim1_confidence_formula`, discharging
its hypotheses at a non-string value and at a concrete document. -/
theorem claim1_witness :
    analyzeContentType "" JSValue.null = negativeAnalysis ∧
    ((analyzeContentType "" (.str "# Hi")).confidence =
        max 0 (min (0.15 * ((matchedNames "# Hi".data).length : ℚ)
          + (if firstNonBlankStartsHash "# Hi".data then 0.1 else 0)
          + (if 2 ≤ (matchedNames "# Hi".data).length then 0.1 else 0)) 1) ∧
      ((analyzeContentType "" (.str "# Hi")).isMarkdown = true ↔
        (analyzeContentType "" (.str "# Hi")).confidence > 0.1) ∧
      (analyzeContentType "" (.str "# Hi")).detectedFeatures = matchedNames "# Hi".data) :=
  ⟨claim1_confidence_formula.1 "" JSValue.null (fun _ h => nomatch h),
   claim1_confidence_formula.2 "" "# Hi" (by decide)⟩

/-- C3.  `detectSlackRawUrl` answers `true` exactly for a string input
that parses as a URL with hostname `files.slack.com` and a pathname
starting with `/files-pri/`; every non-string, empty or unparseable
input yields `false` — and the embedding is a total function, the
`new URL` throw being caught as the `parseURL … = none` branch. -/
theorem detectSlackRawUrl_str (s : String) :
    detectSlackRawUrl (.str s) =
      if s = "" then false
      else
        match parseURL s with
        | some u =>
          decide (u.hostname = "files.slack.com") &&
            startsWithChars "/files-pri/".data u.pathname.data
        | none => false := rfl

theorem claim3_url_predicate :
    ∀ v : JSValue,
      detectSlackRawUrl v = true ↔
        ∃ s u, v = JSValue.str s ∧ parseURL s = some u ∧
          u.hostname = "files.slack.com" ∧
          startsWithChars "/files-pri/".data u.pathname.data = true := by
  intro v
  constructor
  · intro h
    cases v with
    | str s =>
      rw [detectSlackRawUrl_str] at h
      by_cases hs : s = ""
      · rw [if_pos hs] at h
        exact Bool.noConfusion h
      · rw [if_neg hs] at h
        cases hu : parseURL s with
        | none => rw [hu] at h; exact Bool.noConfusion h
        | some u =>
          rw [hu] at h
          have h' : (decide (u.hostname = "files.slack.com") &&
              startsWithChars "/files-pri/".data u.pathname.data) = true := h
          simp only [Bool.and_eq_true, decide_eq_true_iff] at h'
          exact ⟨s, u, rfl, hu, h'.1, h'.2⟩
    | null => exact Bool.noConfusion h
    | undefined => exact Bool.noConfusion h
    | num n => exact Bool.noConfusion h
    | jsBool b => exact Bool.noConfusion h
    | object => exact Bool.noConfusion h
    | array => exact Bool.noConfusion h
  · rintro ⟨s, u, rfl, hp, hh, hpre⟩
    have hs : ¬ s = "" := by
      intro h
      rw [h] at hp
      rw [show parseURL "" = none from rfl] at hp
      exact Option.noConfusion hp
    rw [detectSlackRawUrl_str, if_neg hs, hp]
    simp [hh, hpre]

/-- C5 counterexample.  The full `ContentAnalysis` does depend on the
ambient page location: identical content analysed under two locations
(one whose path ends in `.md`, one without an extension) yields
different records, because the classifier itself calls
`extractFileExtension()` on `window.location.href`. -/
theorem claim5_counterexample :
    analyzeContentType "https://files.slack.com/files-pri/T1-F1/x.md" (.str "# Hi") ≠
      analyzeContentType "https://files.slack.com/files-pri/T1-F1/x" (.str "# Hi") := by
  intro h
  have h' := congrArg ContentAnalysis.fileExtension h
  have h1 : (analyzeContentType "https://files.slack.com/files-pri/T1-F1/x.md"
      (.str "# Hi")).fileExtension = some "md" := rfl
  have h2 : (analyzeContentType "https://files.slack.com/files-pri/T1-F1/x"
      (.str "# Hi")).fileExtension = none := rfl
  rw [h1, h2] at h'
  exact Option.noConfusion h'

/-- C5 as amended.  The classification proper is deterministic and
pure in the content: the `isMarkdown`, `confidence` and
`detectedFeatures` components never depend on the ambient location;
only the `fileExtension` component reads it. -/
theorem claim5_classification_location_free :
    ∀ (loc1 loc2 : String) (v : JSValue),
      (analyzeContentType loc1 v).isMarkdown = (analyzeContentType loc2 v).isMarkdown ∧
      (analyzeContentType loc1 v).confidence = (analyzeContentType loc2 v).confidence ∧
      (analyzeContentType loc1 v).detectedFeatures =
        (analyzeContentType loc2 v).detectedFeatures := by
  intro loc1 loc2 v
  cases v with
  | str s => by_cases hs : s = "" <;> simp [analyzeContentType, hs]
  | null => exact ⟨rfl, rfl, rfl⟩
  | undefined => exact ⟨rfl, rfl, rfl⟩
  | num n => exact ⟨rfl, rfl, rfl⟩
  | jsBool b => exact ⟨rfl, rfl, rfl⟩
  | object => exact ⟨rfl, rfl, rfl⟩
  | array => exact ⟨rfl, rfl, rfl⟩

/-- C7.  Confidence is monotone in the matched feature set: if the
detectors matching `s2` form a strict superset of those matching `s1`,
the confidence computed for `s2` is at least that for `s1`. -/
theorem claim7_confidence_monotone :
    ∀ (loc : String) (s1 s2 : String),
      (∀ f ∈ matchedNames s1.data, f ∈ matchedNames s2.data) →
      (∃ f ∈ matchedNames s2.data, f ∉ matchedNames s1.data) →
      (analyzeContentType loc (.str s1)).confidence ≤
        (analyzeContentType loc (.str s2)).confidence := by
  intro loc s1 s2 hsub hstrict
  by_cases hs2 : s2 = ""
  · exfalso
    rcases hstrict with ⟨f, hf, _⟩
    rw [hs2] at hf
    have hempty : matchedNames ("" : String).data = [] := by decide
    rw [hempty] at hf
    exact absurd hf (List.not_mem_nil f)
  by_cases hs1 : s1 = ""
  · rw [hs1]
    have h0 : (analyzeContentType loc (.str "")).confidence = 0 := by rfl
    rw [h0, analyzeContentType_str loc s2 hs2]
    exact rawConfidence_nonneg _ _
  · rw [analyzeContentType_str loc s1 hs1, analyzeContentType_str loc s2 hs2]
    apply rawConfidence_mono
    have hsub' : (matchedNames s1.data).toFinset ⊆ (matchedNames s2.data).toFinset := by
      intro x hx
      rw [List.mem_toFinset] at hx ⊢
      exact hsub x hx
    rcases hstrict with ⟨f, hf2, hf1⟩
    have hss : (matchedNames s1.data).toFinset ⊂ (matchedNames s2.data).toFinset :=
      (Finset.ssubset_iff_of_subset hsub').mpr
        ⟨f, List.mem_toFinset.mpr hf2, fun h => hf1 (List.mem_toFinset.mp h)⟩
    have hcard := Finset.card_lt_card hss
    rwa [List.toFinset_card_of_nodup (matchedNames_nodup s1.data),
      List.toFinset_card_of_nodup (matchedNames_nodup s2.data)] at hcard

/-- Closed-form instance of `claim7_confidence_monotone`: a blockquote
sample against the same sample extended with an emphasis span. -/
theorem claim7_witness :
    (∀ f ∈ matchedNames "> q".data, f ∈ matchedNames "> q\n**b**".data) ∧
    (∃ f ∈ matchedNames "> q\n**b**".data, f ∉ matchedNames "> q".data) ∧
    (analyzeContentType "" (.str "> q")).confidence ≤
      (analyzeContentType "" (.str "> q\n**b**")).confidence :=
  ⟨by decide, by decide,
   claim7_confidence_monotone "" "> q" "> q\n**b**" (by decide) (by decide)⟩

/-!
The Markdown parsing pipeline.  The external `marked.parse`
collaborator is abstracted as a function `mp : String → Except String
String`; an invocation that throws, or that returns a non-string (the
source turns the latter into a throw of `Marked.js returned non-string
result`), is an `.error` carrying the thrown message.
`configureMarkedOptions` is assumed to succeed (the library is
loaded); its options do not influence any verified property.
-/

/-- `parseMarkdown`: throws on non-string input, returns the empty
string for whitespace-only input without consulting the engine, and
wraps an engine failure in a `Failed to parse Markdown: ` message. -/
def parseMarkdown (mp : String → Except String String) (v : JSValue) :
    Except String String :=
  match v with
  | .str s =>
    if jsTrim s.data = [] then .ok ""
    else
      match mp s with
      | .ok h => .ok h
      | .error e => .error ("Failed to parse Markdown: " ++ e)
  | _ => .error "Markdown content must be a string"

/-- Result record of the content script `safeParseMarkdown`. -/
structure ParseResult where
  success : Bool
  html : Option String
  error : Option String
deriving DecidableEq, Repr

/-- `safeParseMarkdown` of `content-script.js`: try/catch around
`parseMarkdown`. -/
def safeParseMarkdown (mp : String → Except String String) (v : JSValue) :
    ParseResult :=
  match parseMarkdown mp v with
  | .ok h => { success := true, html := some h, error := none }
  | .error e => { success := false, html := none, error := some e }

/-- Leading chunk of the `generateStyledHTML` template literal. -/
def styledHead : String :=
  "\n      <div class=\"slack-markdown-renderer-content\">\n        <div class=\"markdown-body\">\n          "

/-- Trailing chunk of the `generateStyledHTML` template literal. -/
def styledTail : String := "\n        </div>\n      </div>\n    "

/-- `generateStyledHTML` on a string (its only throw fires on
non-string input, which the pipeline never passes once
`safeParseMarkdown` succeeded; the unreachable catch is modelled in
`processMarkdownContent`). -/
def generateStyledHTML (html : String) : String :=
  styledHead ++ html ++ styledTail

/-- Result record of `processMarkdownContent`. -/
structure ProcessResult where
  success : Bool
  html : Option String
  styledHTML : Option String
  error : Option String
deriving DecidableEq, Repr

/-- `processMarkdownContent` of `content-script.js` (synchronous
pipeline): parse safely, then wrap; a parse failure propagates as a
structured failure record. -/
def processMarkdownContent (mp : String → Except String String) (v : JSValue) :
    ProcessResult :=
  let r := safeParseMarkdown mp v
  if r.success then
    match r.html with
    | some h =>
      { success := true, html := some h,
        styledHTML := some (generateStyledHTML h), error := none }
    | none =>
      { success := false, html := none, styledHTML := none,
        error := some "Failed to generate styled HTML: HTML content must be a string" }
  else
    { success := false, html := none, styledHTML := none, error := r.error }

/-- C6 counterexample.  On the empty string `processMarkdownContent`
returns a success record (the parser short-circuits whitespace-only
input to the empty HTML string), so the claim's "empty input yields a
failure result" is false; the engine argument is irrelevant and is
instantiated with an always-failing one. -/
theorem claim6_counterexample :
    (processMarkdownContent (fun _ => Except.error "engine failure")
      (JSValue.str "")).success = true := rfl

/-- C6 as amended.  For every non-string input (null, undefined,
numbers, objects, arrays) `processMarkdownContent` returns a failure
record with the fixed non-empty error message — and, being a total
Lean function, throws nothing.  The empty string, by contrast, yields
a success record (see the counterexample). -/
theorem claim6_nonstring_failure :
    ∀ (mp : String → Except String String) (v : JSValue),
      v.isStr = false →
      processMarkdownContent mp v =
        { success := false, html := none, styledHTML := none,
          error := some "Markdown content must be a string" } ∧
      ¬ "Markdown content must be a string" = "" := by
  intro mp v hv
  refine ⟨?_, by decide⟩
  cases v with
  | str s => exact Bool.noConfusion hv
  | null => rfl
  | undefined => rfl
  | num n => rfl
  | jsBool b => rfl
  | object => rfl
  | array => rfl

/-- Closed-form instance of `claim6_nonstring_failure` at `null` (with
a concrete engine), discharging the non-string hypothesis. -/
theorem claim6_witness :
    JSValue.null.isStr = false ∧
    processMarkdownContent (fun s => Except.ok s) JSValue.null =
      { success := false, html := none, styledHTML := none,
        error := some "Markdown content must be a string" } :=
  ⟨rfl, (claim6_nonstring_failure (fun s => Except.ok s) JSValue.null rfl).1⟩

/-!
Error handling of the extended script: `handleParsingError` and the
`safeParseMarkdown` variant that returns a fallback rendering.
-/

/-- JS truthiness of the modelled values (`0` and the empty string are
falsy, every object and array is truthy). -/
def JSValue.truthy : JSValue → Bool
  | .null => false
  | .undefined => false
  | .num n => !(n = 0)
  | .str s => !(s = "")
  | .jsBool b => b
  | .object => true
  | .array => true

/-- JS string interpolation of the modelled values, as far as the
fallback template displays them (an integer-valued number prints its
integer; the fractional formatting of other numbers is immaterial to
every verified property). -/
def jsDisplay : JSValue → String
  | .null => "null"
  | .undefined => "undefined"
  | .num n => if n.den = 1 then toString n.num else toString n
  | .str s => s
  | .jsBool true => "true"
  | .jsBool false => "false"
  | .object => "[object Object]"
  | .array => ""

/-- The interpolation `content || 'No content available'` of the
fallback template. -/
def contentOrDefault (content : JSValue) : String :=
  if content.truthy then jsDisplay content else "No content available"

/-- Chunk of the `handleParsingError` fallback template before the
error message. -/
def fallbackHead : String :=
  "\n      <div class=\"slack-markdown-renderer-content error-fallback\">\n        <div class=\"error-notice\">\n          <p><strong>⚠️ Markdown parsing failed</strong></p>\n          <p>Displaying original content instead.</p>\n          <details>\n            <summary>Error details</summary>\n            <pre>"

/-- Chunk of the fallback template between the error message and the
original content. -/
def fallbackMid : String :=
  "</pre>\n          </details>\n        </div>\n        <div class=\"original-content\">\n          <pre>"

/-- Trailing chunk of the fallback template. -/
def fallbackTail : String :=
  "</pre>\n        </div>\n      </div>\n    "

/-- `handleParsingError`, reduced to the `styledHTML` fallback string
it hands back to its caller (logging, and the record fields the caller
discards, are not modelled): the original content — or a placeholder
when it is falsy — wrapped in the error-notice template together with
the error message. -/
def handleParsingError (errMsg : String) (content : JSValue) : String :=
  fallbackHead ++ errMsg ++ fallbackMid ++ contentOrDefault content ++ fallbackTail

/-- Result record of the extended `safeParseMarkdown`. -/
structure SafeParse5 where
  success : Bool
  html : Option String
  error : Option String
  fallbackHTML : Option String
deriving DecidableEq, Repr

/-- The `safeParseMarkdown` of the extended script: like the plain
one, but a caught parsing error additionally carries the
`handleParsingError` fallback rendering. -/
def safeParseMarkdown5 (mp : String → Except String String) (content : JSValue) :
    SafeParse5 :=
  match parseMarkdown mp content with
  | .ok h => { success := true, html := some h, error := none, fallbackHTML := none }
  | .error e =>
    { success := false, html := none, error := some e,
      fallbackHTML := some (handleParsingError e content) }

/-!
The pipeline decision layer of the extended script:
`shouldProcessAsMarkdown`, `handleMixedContent`,
`handleNonMarkdownContent`.  The human-readable `reason`/`reasoning`
strings (which embed `toFixed(2)`-formatted numbers) and the
`analyzeStructuredContent` result are not modelled: no verified
property reads them and they influence no decision.
-/

/-- Head of a list is a whitespace character. -/
def headIsWs : List Char → Bool
  | d :: _ => jsWhitespace d
  | [] => false

/-- Alternative `^#{1,6}\s` of the per-line regex: one to six leading
hashes followed by a whitespace character. -/
def lineHashWs : List Char → Nat → Bool
  | c :: r, n =>
    if c = '#' then lineHashWs r (n + 1)
    else decide (1 ≤ n ∧ n ≤ 6) && jsWhitespace c
  | [], _ => false

/-- Alternative `^\d+\.\s`: after one or more leading digits, a dot
and a whitespace character. -/
def lineNumDotAux : List Char → Bool
  | c :: r => if c.isDigit then lineNumDotAux r else (c = '.' && headIsWs r)
  | [] => false

/-- Entry of `^\d+\.\s`: requires the first character to be a digit. -/
def lineNumDot : List Char → Bool
  | c :: r => c.isDigit && lineNumDotAux r
  | [] => false

/-- Helper of the `` `[^`]+` `` alternative: one non-backtick
character then any later backtick (the characters before the first
later backtick are automatically non-backticks; unlike the
document-level detector this class does not exclude newlines, which a
single line cannot contain anyway). -/
def lineTickAfter : List Char → Bool
  | [] => false
  | c :: r => (!(c = btick)) && r.any (· = btick)

/-- Alternative `` `[^`]+` `` of the per-line regex. -/
def lineTickSpan : List Char → Bool
  | [] => false
  | c :: r => (c = btick && lineTickAfter r) || lineTickSpan r

/-- Head of a list is `'('`. -/
def headIsParen : List Char → Bool
  | d :: _ => d = '('
  | [] => false

/-- Helper of `\[.*\]\(.*\)`: find some `](`, with a `')'` anywhere
after the `'('` (the dotted parts match anything on the line). -/
def lineLinkClose : List Char → Bool
  | [] => false
  | c :: r =>
    (c = ']' && headIsParen r && (r.drop 1).any (· = ')')) || lineLinkClose r

/-- Alternative `\[.*\]\(.*\)` of the per-line regex. -/
def lineLinkScan : List Char → Bool
  | [] => false
  | c :: r => (c = '[' && lineLinkClose r) || lineLinkScan r

/-- Head of a list equals the given character. -/
def headIsChar (ch : Char) : List Char → Bool
  | d :: _ => d = ch
  | [] => false

/-- Scan for a doubled character `chch`; on success return the suffix
after it. -/
def findDoubled (ch : Char) : List Char → Option (List Char)
  | [] => none
  | c :: r =>
    if c = ch && headIsChar ch r then some (r.drop 1) else findDoubled ch r

/-- Alternatives `\*\*.*\*\*` and `__.*__`: two disjoint doubled
delimiters. -/
def lineDoubledPair (ch : Char) (l : List Char) : Bool :=
  match findDoubled ch l with
  | some r => (findDoubled ch r).isSome
  | none => false

/-- Alternative `^\s*[-*_]{3,}$`: optional leading whitespace, then at
least three rule characters running to the end of the line. -/
def lineRule (l : List Char) : Bool :=
  let u := l.dropWhile jsWhitespace
  decide (3 ≤ u.length) && u.all (fun c => c = '-' || c = '*' || c = '_')

/-- The per-line Markdown-syntax regex of `handleMixedContent`
(alternatives: 1-6 hashes + whitespace; bullet + whitespace;
blockquote marker + whitespace; digits + dot + whitespace; a triple
backtick anywhere; an inline code span; a link; doubled asterisk or
underscore emphasis; a horizontal rule), applied to the trimmed line
`t`. -/
def lineHasMarkdownSyntax (t : List Char) : Bool :=
  lineHashWs t 0 ||
  (match t with
   | c :: r => (c = '-' || c = '*' || c = '+') && headIsWs r
   | [] => false) ||
  (match t with
   | c :: r => c = '>' && headIsWs r
   | [] => false) ||
  lineNumDot t ||
  containsChars [btick, btick, btick] t ||
  lineTickSpan t ||
  lineLinkScan t ||
  lineDoubledPair '*' t ||
  lineDoubledPair '_' t ||
  lineRule t

/-- The line-classification loop of `handleMixedContent`: count the
non-blank lines with and without Markdown syntax. -/
def mixedCounts (cs : List Char) : Nat × Nat :=
  (splitLines cs).foldl
    (fun acc line =>
      let t := jsTrim line
      if t = [] then acc
      else if lineHasMarkdownSyntax t then (acc.1 + 1, acc.2)
      else (acc.1, acc.2 + 1))
    (0, 0)

/-- Result record of `handleMixedContent` (the `reasoning` string is
not modelled). -/
structure MixedResult where
  totalLines : Nat
  markdownLines : Nat
  plainTextLines : Nat
  markdownRatio : ℚ
  processAsMarkdown : Bool
deriving DecidableEq, Repr

/-- `handleMixedContent`.  In JS, when every line is blank the ratio
is `0/0 = NaN` and `NaN > 0.3` is `false`; the model returns ratio 0
and strategy `false` in that case.  `processAsMarkdown` stands for
`strategy === 'process_as_markdown'`. -/
def handleMixedContent (content : String) : MixedResult :=
  let mc := mixedCounts content.data
  { totalLines := (splitLines content.data).length
    markdownLines := mc.1
    plainTextLines := mc.2
    markdownRatio :=
      if mc.1 + mc.2 = 0 then 0 else (mc.1 : ℚ) / ((mc.1 : ℚ) + (mc.2 : ℚ))
    processAsMarkdown :=
      if mc.1 + mc.2 = 0 then false
      else decide ((mc.1 : ℚ) / ((mc.1 : ℚ) + (mc.2 : ℚ)) > 0.3) }

/-- Result record of `shouldProcessAsMarkdown` (the `reason` string is
not modelled). -/
structure MarkdownDecision where
  shouldProcess : Bool
  confidence : ℚ
  analysis : Option ContentAnalysis
  hasMarkdownExtension : Bool
  detectedFeatures : List String
deriving DecidableEq, Repr

/-- `shouldProcessAsMarkdown`.  The `!content` guard makes the empty
string take the invalid-input branch; that early-return object lacks
the `hasMarkdownExtension` and `detectedFeatures` fields (reading them
gives `undefined`), modelled as `false` and `[]`. -/
def shouldProcessAsMarkdown (loc : String) (content : String)
    (fileExtension : Option String) : MarkdownDecision :=
  if content = "" then
    { shouldProcess := false, confidence := 0, analysis := none,
      hasMarkdownExtension := false, detectedFeatures := [] }
  else
    let hasExt := isMarkdownExtension fileExtension
    let analysis := analyzeContentType loc (.str content)
    if hasExt = true then
      { shouldProcess := true, confidence := max analysis.confidence 0.7,
        analysis := some analysis, hasMarkdownExtension := hasExt,
        detectedFeatures := analysis.detectedFeatures }
    else if analysis.isMarkdown = true ∧ analysis.confidence > 0.3 then
      { shouldProcess := true, confidence := analysis.confidence,
        analysis := some analysis, hasMarkdownExtension := hasExt,
        detectedFeatures := analysis.detectedFeatures }
    else if analysis.confidence > 0.6 then
      { shouldProcess := true, confidence := analysis.confidence,
        analysis := some analysis, hasMarkdownExtension := hasExt,
        detectedFeatures := analysis.detectedFeatures }
    else
      { shouldProcess := false, confidence := analysis.confidence,
        analysis := some analysis, hasMarkdownExtension := hasExt,
        detectedFeatures := analysis.detectedFeatures }

/-- The action taken by `handleNonMarkdownContent`. -/
inductive ContentAction where
  | processAsMarkdown
  | preserveOriginal
deriving DecidableEq, Repr

/-- Result record of `handleNonMarkdownContent` (reason strings and
the structured-content analysis are not modelled; `mixedContent` is
the flag set only by the mixed-content branch). -/
structure HandleResult where
  action : ContentAction
  confidence : ℚ
  analysis : Option ContentAnalysis
  mixedContent : Bool
deriving DecidableEq, Repr

/-- The preserve-original result assembled at the end of
`handleNonMarkdownContent`. -/
def handlePreserve (d : MarkdownDecision) : HandleResult :=
  { action := .preserveOriginal, confidence := d.confidence,
    analysis := d.analysis, mixedContent := false }

/-- `handleNonMarkdownContent`: follow the `shouldProcessAsMarkdown`
decision; otherwise, when the analysis detected at least one feature,
give the mixed-content heuristic a chance; otherwise preserve. -/
def handleNonMarkdownContent (loc : String) (content : String)
    (fileExtension : Option String) : HandleResult :=
  let d := shouldProcessAsMarkdown loc content fileExtension
  if d.shouldProcess = true then
    { action := .processAsMarkdown, confidence := d.confidence,
      analysis := d.analysis, mixedContent := false }
  else
    match d.analysis with
    | some a =>
      if 0 < a.detectedFeatures.length then
        if (handleMixedContent content).processAsMarkdown = true then
          { action := .processAsMarkdown, confidence := d.confidence,
            analysis := d.analysis, mixedContent := true }
        else handlePreserve d
      else handlePreserve d
    | none => handlePreserve d

theorem analyze_isMarkdown_eq (loc : String) (s : String) (hs : ¬ s = "") :
    (analyzeContentType loc (.str s)).isMarkdown =
      decide ((analyzeContentType loc (.str s)).confidence > 0.1) := by
  rw [analyzeContentType_str loc s hs]

theorem shouldProcess_analysis (loc content : String) (ext : Option String)
    (h : ¬ content = "") :
    (shouldProcessAsMarkdown loc content ext).analysis =
      some (analyzeContentType loc (.str content)) := by
  unfold shouldProcessAsMarkdown
  rw [if_neg h]
  dsimp only
  split_ifs <;> rfl

theorem shouldProcess_eq (loc content : String) (ext : Option String)
    (h : ¬ content = "") :
    (shouldProcessAsMarkdown loc content ext).shouldProcess =
      (isMarkdownExtension ext ||
        decide ((analyzeContentType loc (.str content)).confidence > 0.3) ||
        decide ((analyzeContentType loc (.str content)).confidence > 0.6)) := by
  unfold shouldProcessAsMarkdown
  rw [if_neg h]
  dsimp only
  cases hext : isMarkdownExtension ext with
  | true => simp
  | false =>
    rw [if_neg (fun hf => Bool.noConfusion hf)]
    split_ifs with h1 h2
    · rw [decide_eq_true h1.2]
      simp
    · rw [decide_eq_true h2]
      simp
    · have hc3 : ¬ ((analyzeContentType loc (.str content)).confidence > 0.3) := by
        intro hgt
        exact h1 ⟨by
          rw [analyze_isMarkdown_eq loc content h]
          exact decide_eq_true (by linarith), hgt⟩
      rw [decide_eq_false hc3, decide_eq_false h2]
      simp

/-- C2 as amended.  The combined pipeline decision processes content
as Markdown iff the content is non-empty and: the extension is on the
allow-list, or the classifier confidence exceeds 0.3, or it exceeds
0.6 (a dead disjunct, implied by the previous one), or — the
mixed-content fallback — the whole-document analysis detected at
least one feature and strictly more than 30% of the non-blank lines
carry Markdown syntax.  When the extension is on the allow-list the
reported confidence is floored at 0.7. -/
theorem claim2_decision_policy :
    (∀ (loc content : String) (ext : Option String),
      ((handleNonMarkdownContent loc content ext).action =
          ContentAction.processAsMarkdown ↔
        (¬ content = "" ∧
          (isMarkdownExtension ext = true ∨
           (analyzeContentType loc (.str content)).confidence > 0.3 ∨
           (analyzeContentType loc (.str content)).confidence > 0.6 ∨
           (¬ (analyzeContentType loc (.str content)).detectedFeatures = [] ∧
            (handleMixedContent content).processAsMarkdown = true))))) ∧
    (∀ (loc content : String) (ext : Option String),
      isMarkdownExtension ext = true → ¬ content = "" →
      (shouldProcessAsMarkdown loc content ext).confidence ≥ 0.7) := by
  constructor
  · intro loc content ext
    by_cases hc : content = ""
    · subst hc
      have hact : (handleNonMarkdownContent loc "" ext).action =
          ContentAction.preserveOriginal := rfl
      rw [hact]
      constructor
      · intro h
        exact ContentAction.noConfusion h
      · rintro ⟨h, _⟩
        exact absurd rfl h
    · have hsp := shouldProcess_eq loc content ext hc
      have ha := shouldProcess_analysis loc content ext hc
      unfold handleNonMarkdownContent
      dsimp only
      cases hd : (shouldProcessAsMarkdown loc content ext).shouldProcess with
      | true =>
        rw [if_pos rfl]
        refine iff_of_true rfl ⟨hc, ?_⟩
        have h0 : (isMarkdownExtension ext ||
            decide ((analyzeContentType loc (.str content)).confidence > 0.3) ||
            decide ((analyzeContentType loc (.str content)).confidence > 0.6)) = true :=
          hsp.symm.trans hd
        simp only [Bool.or_eq_true, decide_eq_true_eq] at h0
        tauto
      | false =>
        have hall : isMarkdownExtension ext = false ∧
            ¬ ((analyzeContentType loc (.str content)).confidence > 0.3) ∧
            ¬ ((analyzeContentType loc (.str content)).confidence > 0.6) := by
          have h0 : (isMarkdownExtension ext ||
              decide ((analyzeContentType loc (.str content)).confidence > 0.3) ||
              decide ((analyzeContentType loc (.str content)).confidence > 0.6)) = false :=
            hsp.symm.trans hd
          simp only [Bool.or_eq_false_iff, decide_eq_false_iff_not] at h0
          exact ⟨h0.1.1, h0.1.2, h0.2⟩
        rw [if_neg (fun hcontr => Bool.noConfusion hcontr), ha]
        dsimp only
        split_ifs with hf hm
        · refine iff_of_true rfl ⟨hc, Or.inr (Or.inr (Or.inr ⟨?_, hm⟩))⟩
          intro hnil
          rw [hnil] at hf
          exact absurd hf (by decide)
        · refine iff_of_false (fun h => ContentAction.noConfusion h) ?_
          rintro ⟨-, h1 | h2 | h3 | ⟨-, hm'⟩⟩
          · exact absurd h1 (by rw [hall.1]; exact Bool.noConfusion)
          · exact hall.2.1 h2
          · exact hall.2.2 h3
          · exact hm hm'
        · refine iff_of_false (fun h => ContentAction.noConfusion h) ?_
          rintro ⟨-, h1 | h2 | h3 | ⟨hne, -⟩⟩
          · exact absurd h1 (by rw [hall.1]; exact Bool.noConfusion)
          · exact hall.2.1 h2
          · exact hall.2.2 h3
          · exact hf (List.length_pos.mpr hne)
  · intro loc content ext hext hc
    unfold shouldProcessAsMarkdown
    rw [if_neg hc]
    simp only [hext, ite_true]
    exact le_max_right _ _

/-- The mixed-content sample used to refute C2 as stated: exactly 3 of
its 10 non-blank lines carry Markdown syntax. -/
def mixedBoundarySample : String := "> q\n1. a\n2. b\nw\nw\nw\nw\nw\nw\nw"

/-- C2 counterexample.  For this sample the Markdown-line ratio equals
exactly 30% — meeting the claim's "at least 30%" condition — while
the extension is absent and the whole-document confidence is 0.15, yet
the pipeline preserves the original instead of processing it as
Markdown: the code demands a ratio strictly greater than 0.3. -/
theorem claim2_counterexample :
    (handleMixedContent mixedBoundarySample).markdownRatio = 3 / 10 ∧
    (analyzeContentType "" (.str mixedBoundarySample)).confidence = 0.15 ∧
    ¬ (analyzeContentType "" (.str mixedBoundarySample)).detectedFeatures = [] ∧
    (handleNonMarkdownContent "" mixedBoundarySample none).action =
      ContentAction.preserveOriginal := by
  have hmc : mixedCounts mixedBoundarySample.data = (3, 7) := by decide
  have hk : matchedNames mixedBoundarySample.data = ["blockquotes"] := by decide
  have hh : firstNonBlankStartsHash mixedBoundarySample.data = false := by decide
  have hs : ¬ mixedBoundarySample = "" := by decide
  have ha := analyzeContentType_str "" mixedBoundarySample hs
  have hconf : (analyzeContentType "" (.str mixedBoundarySample)).confidence = 0.15 := by
    rw [ha]
    show rawConfidence (matchedNames mixedBoundarySample.data).length
      (firstNonBlankStartsHash mixedBoundarySample.data) = 0.15
    rw [hk, hh]
    unfold rawConfidence
    norm_num
  have hmix : (handleMixedContent mixedBoundarySample).processAsMarkdown = false := by
    unfold handleMixedContent
    rw [hmc]
    norm_num
  refine ⟨?_, hconf, ?_, ?_⟩
  · unfold handleMixedContent
    rw [hmc]
    norm_num
  · rw [ha]
    show ¬ matchedNames mixedBoundarySample.data = []
    rw [hk]
    exact fun h => List.noConfusion h
  · have hsp : (shouldProcessAsMarkdown "" mixedBoundarySample none).shouldProcess = false := by
      rw [shouldProcess_eq "" mixedBoundarySample none hs]
      rw [show isMarkdownExtension none = false from rfl]
      rw [decide_eq_false (by rw [hconf]; norm_num),
        decide_eq_false (by rw [hconf]; norm_num)]
      rfl
    unfold handleNonMarkdownContent
    dsimp only
    rw [hsp]
    simp only [Bool.false_eq_true, ite_false,
      shouldProcess_analysis "" mixedBoundarySample none hs]
    rw [hmix]
    simp [handlePreserve]

/-- Closed-form instance of `claim2_decision_policy`: the allow-listed
extension `md` floors the reported confidence at 0.7 for a concrete
non-empty content. -/
theorem claim2_witness :
    isMarkdownExtension (some "md") = true ∧ ¬ "x" = "" ∧
    (shouldProcessAsMarkdown "" "x" (some "md")).confidence ≥ 0.7 :=
  ⟨by decide, by decide,
   claim2_decision_policy.2 "" "x" (some "md") (by decide) (by decide)⟩

/-!
Model of the DOM replacement protocol of `content-script.js`.  The
content container element is a record of the attributes the script
reads and writes.  The script keeps two references,
`currentContentContainer` and the result of `findContentContainer()`;
`backupOriginalContent` always points `currentContentContainer` at the
container it snapshots, so the two are collapsed into the single
`container` field of the module state.  `textContent` is captured into
the snapshot; a real DOM would re-derive it whenever `innerHTML` is
assigned, which the model does not track because no verified property
reads it after a mutation.
-/

/-- The content container element (attributes used by the script). -/
structure DomContainer where
  innerHTML : String
  textContent : String
  className : String
  tagName : String
deriving DecidableEq, Repr

/-- The `originalContentBackup` record. -/
structure ContentSnapshot where
  innerHTML : String
  textContent : String
  className : String
  tagName : String
deriving DecidableEq, Repr

/-- The snapshot captured from a container by `backupOriginalContent`. -/
def snapshotOf (c : DomContainer) : ContentSnapshot :=
  { innerHTML := c.innerHTML, textContent := c.textContent,
    className := c.className, tagName := c.tagName }

/-- The module-level mutable state of the replacement protocol:
`currentContentContainer`/the found container, `originalContentBackup`
and `isContentReplaced`. -/
structure DomState where
  container : Option DomContainer
  backup : Option ContentSnapshot
  isContentReplaced : Bool
deriving DecidableEq, Repr

/-- ASCII whitespace, the separator set of the HTML `class`
attribute. -/
def htmlWs (c : Char) : Bool :=
  c = ' ' || c = '\t' || c = '\n' || c = '\x0c' || c = '\r'

/-- Split at whitespace characters (keeping empty segments, which the
token list then drops). -/
def splitWhenWs : List Char → List (List Char)
  | [] => [[]]
  | c :: r =>
    if htmlWs c then [] :: splitWhenWs r
    else
      match splitWhenWs r with
      | [] => [[c]]
      | l :: ls => (c :: l) :: ls

/-- The token list of a `class` attribute value. -/
def classTokens (s : String) : List String :=
  ((splitWhenWs s.data).filter (fun t => !(t = []))).map (fun t => (⟨t⟩ : String))

/-- The marker class added to a replaced container. -/
def markerClass : String := "slack-markdown-rendered"

/-- `classList.add(tok)`: no-op when the token is present, otherwise
append (DOM serialization niceties on degenerate attribute values are
not modelled; no verified property depends on them). -/
def classListAdd (cls tok : String) : String :=
  if (classTokens cls).contains tok then cls
  else if cls = "" then tok else cls ++ " " ++ tok

/-- `classList.remove(tok)`: when the token is present, re-serialize
the remaining tokens separated by single spaces; modelled as a no-op
when it is absent. -/
def classListRemove (cls tok : String) : String :=
  if (classTokens cls).contains tok then
    String.intercalate " " ((classTokens cls).filter (fun t => !(t = tok)))
  else cls

/-- `backupOriginalContent`: snapshot the container and point
`currentContentContainer` at it (throws only on a `null` argument,
which no modelled caller passes). -/
def backupOriginalContent (c : DomContainer) (st : DomState) : DomState :=
  { st with backup := some (snapshotOf c), container := some c }

/-- `replaceContentWithHTML`: validate the styled HTML, find the
container, create the backup only if absent, then swap the markup in
and add the marker class.  An `.error` is a thrown exception. -/
def replaceContentWithHTML (styledHTML : JSValue) (st : DomState) :
    Except String (Bool × DomState) :=
  match styledHTML with
  | .str s =>
    if jsTrim s.data = [] then .error "Styled HTML content is required"
    else
      match st.container with
      | none => .error "Could not find content container for replacement"
      | some c =>
        let st1 :=
          match st.backup with
          | none => backupOriginalContent c st
          | some _ => st
        let c1 := { c with
          innerHTML := s
          className := classListAdd c.className markerClass }
        .ok (true, { st1 with container := some c1, isContentReplaced := true })
  | _ => .error "Styled HTML content is required"

/-- `restoreOriginalContent`: requires a backup and a container
reference; restores the markup, then the class attribute, then removes
the marker class from it. -/
def restoreOriginalContent (st : DomState) : Except String (Bool × DomState) :=
  match st.backup, st.container with
  | some b, some c =>
    let c1 := { c with
      innerHTML := b.innerHTML
      className := classListRemove b.className markerClass }
    .ok (true, { st with container := some c1, isContentReplaced := false })
  | _, _ => .error "No backup available to restore"

/-- The record returned by `getContentState`. -/
structure ContentState where
  isReplaced : Bool
  hasBackup : Bool
  containerFound : Bool
  currentMode : String
deriving DecidableEq, Repr

/-- `getContentState`. -/
def getContentState (st : DomState) : ContentState :=
  { isReplaced := st.isContentReplaced
    hasBackup := st.backup.isSome
    containerFound := st.container.isSome
    currentMode := if st.isContentReplaced then "rendered" else "raw" }

/-- The record returned by `performContentReplacement`. -/
structure PerformResult where
  success : Bool
  state : ContentState
  error : Option String
deriving DecidableEq, Repr

/-- `performContentReplacement`: try/catch around
`replaceContentWithHTML`, also returning the module state it leaves
behind. -/
def performContentReplacement (styledHTML : JSValue) (st : DomState) :
    PerformResult × DomState :=
  match replaceContentWithHTML styledHTML st with
  | .ok (b, st1) => ({ success := b, state := getContentState st1, error := none }, st1)
  | .error e => ({ success := false, state := getContentState st, error := some e }, st)

/-- A replacement-protocol operation (the two mutators of the page
lifecycle after initialisation). -/
inductive DomOp where
  | replace (styledHTML : JSValue)
  | restore
deriving DecidableEq, Repr

/-- The module state left behind by one operation (a thrown exception
is caught by every caller in the script — `toggleContent`,
`performContentReplacement` — leaving the state as it was). -/
def applyDomOp (op : DomOp) (st : DomState) : DomState :=
  match op with
  | .replace h =>
    match replaceContentWithHTML h st with
    | .ok (_, st1) => st1
    | .error _ => st
  | .restore =>
    match restoreOriginalContent st with
    | .ok (_, st1) => st1
    | .error _ => st

/-- A sequence of replacement-protocol operations. -/
def applyDomOps (ops : List DomOp) (st : DomState) : DomState :=
  ops.foldl (fun s op => applyDomOp op s) st

/-- C4 as amended.  When the pre-activation class attribute does not
already carry the `slack-markdown-rendered` marker token, activation
followed by deactivation restores the container's markup and class
attribute byte-identical to the snapshot captured before the first
mutation.  (The marker proviso is forced: `restoreOriginalContent`
runs `classList.remove` after restoring the class attribute, so a
pre-existing marker token is stripped — see the counterexample.) -/
theorem claim4_roundtrip_restores :
    ∀ (st : DomState) (c : DomContainer) (html : String),
      st.container = some c →
      st.backup = none →
      ¬ c.textContent = "" →
      ¬ jsTrim html.data = [] →
      (classTokens c.className).contains markerClass = false →
      ∃ st1 st2 c2,
        replaceContentWithHTML (.str html) st = .ok (true, st1) ∧
        st1.backup = some (snapshotOf c) ∧
        restoreOriginalContent st1 = .ok (true, st2) ∧
        st2.backup = some (snapshotOf c) ∧
        st2.container = some c2 ∧
        c2.innerHTML = (snapshotOf c).innerHTML ∧
        c2.className = (snapshotOf c).className := by
  intro st c html hc hb htext hhtml hmark
  have hrem : classListRemove c.className markerClass = c.className := by
    unfold classListRemove
    rw [hmark, if_neg (fun hf => Bool.noConfusion hf)]
  refine ⟨{ container := some { c with
              innerHTML := html
              className := classListAdd c.className markerClass }
            backup := some (snapshotOf c), isContentReplaced := true },
          { container := some { c with
              innerHTML := c.innerHTML
              className := classListRemove c.className markerClass }
            backup := some (snapshotOf c), isContentReplaced := false },
          { c with
            innerHTML := c.innerHTML
            className := classListRemove c.className markerClass },
          ?_, rfl, rfl, rfl, rfl, rfl, hrem⟩
  unfold replaceContentWithHTML
  dsimp only
  rw [if_neg hhtml, hc, hb]
  rfl

/-- The container of the C4 counterexample: its class attribute
already contains the marker token alongside another class. -/
def markedContainer : DomContainer :=
  { innerHTML := "<pre>text</pre>", textContent := "text",
    className := "slack-markdown-rendered note", tagName := "PRE" }

/-- Pre-activation module state for the C4 counterexample. -/
def markedState : DomState :=
  { container := some markedContainer, backup := none, isContentReplaced := false }

/-- C4 counterexample.  Activation followed by deactivation on a
container whose original class attribute contains the marker token
leaves the class attribute at `"note"`, not byte-identical to the
snapshot's `"slack-markdown-rendered note"` — the trailing
`classList.remove` of `restoreOriginalContent` strips the token. -/
theorem claim4_counterexample :
    (replaceContentWithHTML (.str "<p>x</p>") markedState).isOk = true ∧
    (applyDomOps [DomOp.replace (.str "<p>x</p>"), DomOp.restore] markedState).backup =
      some (snapshotOf markedContainer) ∧
    (applyDomOps [DomOp.replace (.str "<p>x</p>"), DomOp.restore] markedState).container =
      some { innerHTML := "<pre>text</pre>", textContent := "text",
             className := "note", tagName := "PRE" } ∧
    ¬ ("note" : String) = "slack-markdown-rendered note" := by
  refine ⟨rfl, rfl, rfl, by decide⟩

/-- Closed-form instance of `claim4_roundtrip_restores`, discharging
its hypotheses on a concrete marker-free container. -/
theorem claim4_witness :
    ∃ st1 st2 c2,
      replaceContentWithHTML (.str "<p>x</p>")
        { container := some { innerHTML := "<pre>t</pre>", textContent := "t",
                              className := "file", tagName := "PRE" },
          backup := none, isContentReplaced := false } = .ok (true, st1) ∧
      st1.backup = some (snapshotOf { innerHTML := "<pre>t</pre>", textContent := "t",
                                      className := "file", tagName := "PRE" }) ∧
      restoreOriginalContent st1 = .ok (true, st2) ∧
      st2.backup = some (snapshotOf { innerHTML := "<pre>t</pre>", textContent := "t",
                                      className := "file", tagName := "PRE" }) ∧
      st2.container = some c2 ∧
      c2.innerHTML = (snapshotOf { innerHTML := "<pre>t</pre>", textContent := "t",
                                   className := "file", tagName := "PRE" }).innerHTML ∧
      c2.className = (snapshotOf { innerHTML := "<pre>t</pre>", textContent := "t",
                                   className := "file", tagName := "PRE" }).className :=
  claim4_roundtrip_restores _ _ "<p>x</p>" rfl rfl (by decide) (by decide) (by decide)

/-- C8, part (a) helper: the error produced by `parseMarkdown` on
actual engine failure always carries the fixed human-readable
prefix. -/
theorem parseMarkdown_error_shape (mp : String → Except String String)
    (s : String) (e : String) (h : parseMarkdown mp (.str s) = .error e) :
    ¬ s = "" ∧ ∃ m, e = "Failed to parse Markdown: " ++ m := by
  unfold parseMarkdown at h
  dsimp only at h
  by_cases htr : jsTrim s.data = []
  · rw [if_pos htr] at h
    exact Except.noConfusion h
  · rw [if_neg htr] at h
    constructor
    · intro hs
      rw [hs] at htr
      exact htr rfl
    · cases hmp : mp s with
      | ok v => rw [hmp] at h; exact Except.noConfusion h
      | error m =>
        rw [hmp] at h
        exact ⟨m, (Except.error.injEq _ _ ▸ h.symm : _)⟩

/-- C8.  (a) If parsing fails, the extended `safeParseMarkdown`
returns a structured failure record carrying the error message and a
fallback rendering that embeds the original text, instead of
propagating the exception.  (b) If content replacement fails —
non-string or blank styled HTML, or no container — then
`performContentReplacement` returns a failure record with a non-empty
error message, and the module state it leaves behind is exactly the
state it started from (no container mutation, no snapshot change). -/
theorem claim8_failure_isolation :
    (∀ (mp : String → Except String String) (s : String) (e : String),
      parseMarkdown mp (.str s) = .error e →
      safeParseMarkdown5 mp (.str s) =
        { success := false, html := none, error := some e,
          fallbackHTML := some (handleParsingError e (.str s)) } ∧
      ¬ e = "" ∧
      s.data <:+: (handleParsingError e (.str s)).data) ∧
    (∀ (st : DomState) (styledHTML : JSValue),
      ((∀ s, styledHTML = JSValue.str s → jsTrim s.data = []) ∨ st.container = none) →
      ∃ e, performContentReplacement styledHTML st =
        ({ success := false, state := getContentState st, error := some e }, st) ∧
        ¬ e = "") := by
  constructor
  · intro mp s e h
    obtain ⟨hs, m, hm⟩ := parseMarkdown_error_shape mp s e h
    refine ⟨?_, ?_, ?_⟩
    · unfold safeParseMarkdown5
      rw [h]
    · intro he
      rw [he] at hm
      have hd := congrArg String.data hm
      rw [String.data_append] at hd
      exact List.noConfusion hd
    · have htruthy : JSValue.truthy (.str s) = true := by
        unfold JSValue.truthy
        dsimp only
        rw [decide_eq_false hs]
        rfl
      have hco : contentOrDefault (.str s) = s := by
        unfold contentOrDefault
        rw [htruthy, if_pos rfl]
        rfl
      refine ⟨(fallbackHead ++ e ++ fallbackMid).data, fallbackTail.data, ?_⟩
      unfold handleParsingError
      rw [hco]
      simp [String.data_append, List.append_assoc]
  · intro st styledHTML hcase
    cases styledHTML with
    | str s =>
      by_cases htr : jsTrim s.data = []
      · refine ⟨"Styled HTML content is required", ?_, by decide⟩
        unfold performContentReplacement replaceContentWithHTML
        dsimp only
        rw [if_pos htr]
      · rcases hcase with hinv | hcont
        · exact absurd (hinv s rfl) htr
        · refine ⟨"Could not find content container for replacement", ?_, by decide⟩
          unfold performContentReplacement replaceContentWithHTML
          dsimp only
          rw [if_neg htr, hcont]
    | null => exact ⟨"Styled HTML content is required", rfl, by decide⟩
    | undefined => exact ⟨"Styled HTML content is required", rfl, by decide⟩
    | num n => exact ⟨"Styled HTML content is required", rfl, by decide⟩
    | jsBool b => exact ⟨"Styled HTML content is required", rfl, by decide⟩
    | object => exact ⟨"Styled HTML content is required", rfl, by decide⟩
    | array => exact ⟨"Styled HTML content is required", rfl, by decide⟩

/-- Closed-form instance of `claim8_failure_isolation`: a concrete
failing engine on concrete content, and a replacement attempt in a
state with no container. -/
theorem claim8_witness :
    (safeParseMarkdown5 (fun _ => Except.error "boom") (.str "# T") =
      { success := false, html := none,
        error := some "Failed to parse Markdown: boom",
        fallbackHTML := some (handleParsingError "Failed to parse Markdown: boom"
          (.str "# T")) }) ∧
    (∃ e, performContentReplacement (JSValue.str "<p>x</p>")
        { container := none, backup := none, isContentReplaced := false } =
      ({ success := false,
         state := getContentState { container := none, backup := none,
                                    isContentReplaced := false },
         error := some e },
       { container := none, backup := none, isContentReplaced := false }) ∧
      ¬ e = "") :=
  ⟨(claim8_failure_isolation.1 (fun _ => Except.error "boom") "# T"
      "Failed to parse Markdown: boom" rfl).1,
   claim8_failure_isolation.2
     { container := none, backup := none, isContentReplaced := false }
     (JSValue.str "<p>x</p>") (Or.inr rfl)⟩

/-- Helper for C10: a successful `replaceContentWithHTML` never
overwrites an existing backup. -/
theorem replace_backup_preserved (html : JSValue) (st : DomState)
    (b : ContentSnapshot) (h : st.backup = some b) (r : Bool) (st1 : DomState)
    (heq : replaceContentWithHTML html st = .ok (r, st1)) :
    st1.backup = some b := by
  unfold replaceContentWithHTML at heq
  cases html with
  | str s =>
    dsimp only at heq
    by_cases htr : jsTrim s.data = []
    · rw [if_pos htr] at heq
      exact Except.noConfusion heq
    · rw [if_neg htr] at heq
      cases hc : st.container with
      | none => rw [hc] at heq; exact Except.noConfusion heq
      | some c =>
        rw [hc, h] at heq
        simp only [Except.ok.injEq, Prod.mk.injEq] at heq
        rw [← heq.2]
        exact h
  | null => exact Except.noConfusion heq
  | undefined => exact Except.noConfusion heq
  | num n => exact Except.noConfusion heq
  | jsBool b2 => exact Except.noConfusion heq
  | object => exact Except.noConfusion heq
  | array => exact Except.noConfusion heq

/-- Helper for C10: `restoreOriginalContent` never touches the
backup. -/
theorem restore_backup_preserved (st : DomState) (r : Bool) (st1 : DomState)
    (heq : restoreOriginalContent st = .ok (r, st1)) :
    st1.backup = st.backup := by
  unfold restoreOriginalContent at heq
  cases hb : st.backup with
  | none => rw [hb] at heq; exact Except.noConfusion heq
  | some b =>
    cases hc : st.container with
    | none => rw [hb, hc] at heq; exact Except.noConfusion heq
    | some c =>
      rw [hb, hc] at heq
      simp only [Except.ok.injEq, Prod.mk.injEq] at heq
      rw [← heq.2]

/-- Helper for C10: one protocol operation preserves an existing
backup. -/
theorem applyDomOp_backup (op : DomOp) (st : DomState) (b : ContentSnapshot)
    (h : st.backup = some b) : (applyDomOp op st).backup = some b := by
  cases op with
  | replace html =>
    unfold applyDomOp
    dsimp only
    cases heq : replaceContentWithHTML html st with
    | error e => exact h
    | ok p => exact replace_backup_preserved html st b h p.1 p.2 heq
  | restore =>
    unfold applyDomOp
    dsimp only
    cases heq : restoreOriginalContent st with
    | error e => exact h
    | ok p => exact (restore_backup_preserved st p.1 p.2 heq).trans h

/-- C10.  The snapshot is written at most once and never mutated: the
first successful replacement captures exactly the pre-replacement
state of the container, and every subsequent sequence of
replace/restore operations leaves the stored snapshot equal to that
first capture — which is what makes a duplicate pipeline run safe. -/
theorem claim10_snapshot_write_once :
    (∀ (st : DomState) (c : DomContainer) (html : JSValue) (r : Bool) (st1 : DomState),
      st.backup = none → st.container = some c →
      replaceContentWithHTML html st = .ok (r, st1) →
      st1.backup = some (snapshotOf c)) ∧
    (∀ (ops : List DomOp) (st : DomState) (b : ContentSnapshot),
      st.backup = some b → (applyDomOps ops st).backup = some b) := by
  constructor
  · intro st c html r st1 hb hc heq
    unfold replaceContentWithHTML at heq
    cases html with
    | str s =>
      dsimp only at heq
      by_cases htr : jsTrim s.data = []
      · rw [if_pos htr] at heq
        exact Except.noConfusion heq
      · rw [if_neg htr, hc, hb] at heq
        simp only [Except.ok.injEq, Prod.mk.injEq] at heq
        rw [← heq.2]
        rfl
    | null => exact Except.noConfusion heq
    | undefined => exact Except.noConfusion heq
    | num n => exact Except.noConfusion heq
    | jsBool b2 => exact Except.noConfusion heq
    | object => exact Except.noConfusion heq
    | array => exact Except.noConfusion heq
  · intro ops
    induction ops with
    | nil => intro st b h; exact h
    | cons op rest ih =>
      intro st b h
      exact ih (applyDomOp op st) b (applyDomOp_backup op st b h)

/-- Closed-form instance of `claim10_snapshot_write_once`: a state
that already holds a snapshot keeps it across a replace/restore/replace
sequence. -/
theorem claim10_witness :
    (applyDomOps [DomOp.replace (.str "<p>y</p>"), DomOp.restore,
        DomOp.replace (.str "<p>z</p>")]
      { container := some { innerHTML := "<pre>a</pre>", textContent := "a",
                            className := "", tagName := "PRE" },
        backup := some { innerHTML := "<pre>orig</pre>", textContent := "orig",
                         className := "x", tagName := "PRE" },
        isContentReplaced := false }).backup =
      some { innerHTML := "<pre>orig</pre>", textContent := "orig",
             className := "x", tagName := "PRE" } :=
  claim10_snapshot_write_once.2 _ _ _ rfl

/-!
Model of the session preference manager.  The per-tab `sessionStorage`
is an association list when available; `none` models a disabled store,
whose `getItem`/`setItem`/`removeItem` throw — every caller in the
script wraps them in try/catch, which the model reflects by returning
the unchanged state.  `sessionPreferences.defaultView` is the
in-memory default (`'rendered'` at script load).
-/

/-- The session store contents. -/
abbrev Store := List (String × String)

/-- The view-mode preference key. -/
def viewPrefKey : String := "slack-markdown-renderer-view-preference"

/-- The theme preference key. -/
def themePrefKey : String := "slack-markdown-renderer-theme-preference"

/-- `sessionStorage.getItem`. -/
def storeGet : Store → String → Option String
  | [], _ => none
  | (k1, v) :: r, k => if k1 = k then some v else storeGet r k

/-- `sessionStorage.setItem`. -/
def storeSet (m : Store) (k v : String) : Store :=
  (k, v) :: m.filter (fun p => !(p.1 = k))

/-- `sessionStorage.removeItem`. -/
def storeRemove (m : Store) (k : String) : Store :=
  m.filter (fun p => !(p.1 = k))

/-- The mutable state of the preference manager: the session store (or
`none` when storage is unavailable) and the in-memory
`sessionPreferences.defaultView`. -/
structure PrefState where
  storage : Option Store
  defaultView : String
deriving DecidableEq, Repr

/-- `saveSessionPreference`: reject invalid modes with a warning;
`setItem` then update the in-memory default inside the `try`, so a
storage failure leaves the default untouched — the catch only logs. -/
def saveSessionPreference (v : String) (s : PrefState) : PrefState :=
  if v = "raw" ∨ v = "rendered" then
    match s.storage with
    | none => s
    | some m => { storage := some (storeSet m viewPrefKey v), defaultView := v }
  else s

/-- `loadSessionPreference`: return the stored value only when it is
one of the two valid modes (also adopting it as the in-memory
default); otherwise, and when `getItem` throws, fall through to the
current in-memory default. -/
def loadSessionPreference (s : PrefState) : String × PrefState :=
  match s.storage with
  | none => (s.defaultView, s)
  | some m =>
    match storeGet m viewPrefKey with
    | some p =>
      if p = "raw" ∨ p = "rendered" then (p, { s with defaultView := p })
      else (s.defaultView, s)
    | none => (s.defaultView, s)

/-- `clearSessionPreference`: remove the stored value and reset the
in-memory default, both inside the `try`. -/
def clearSessionPreference (s : PrefState) : PrefState :=
  match s.storage with
  | none => s
  | some m => { storage := some (storeRemove m viewPrefKey), defaultView := "rendered" }

/-- `saveThemePreference`: `setItem` with no validation, caught on
storage failure. -/
def saveThemePreference (t : String) (s : PrefState) : PrefState :=
  match s.storage with
  | none => s
  | some m => { s with storage := some (storeSet m themePrefKey t) }

/-- `Object.keys(BACKGROUND_THEMES)`. -/
def themeKeys : List String := ["WHITE", "LIGHT_GRAY", "WARM_WHITE", "PAPER"]

/-- JS `String.prototype.replace('-', '_')` replaces only the first
occurrence. -/
def replaceFirstDash : List Char → List Char
  | [] => []
  | c :: r => if c = '-' then '_' :: r else c :: replaceFirstDash r

/-- `savedTheme.toUpperCase().replace('-', '_')`. -/
def normalizeThemeKey (t : String) : String :=
  ⟨replaceFirstDash (t.data.map Char.toUpper)⟩

/-- `loadThemePreference`: the stored string is returned as-is when it
is truthy and its normalization is a known theme key; otherwise (and
on storage failure) the fixed default `white`. -/
def loadThemePreference (s : PrefState) : String :=
  match s.storage with
  | none => "white"
  | some m =>
    match storeGet m themePrefKey with
    | some t =>
      if ¬ t = "" ∧ themeKeys.contains (normalizeThemeKey t) = true then t
      else "white"
    | none => "white"

/-- A preference-manager operation.  `pageLoad` is a fresh injection
of the content script in the same tab session: the session store
survives, the in-memory default re-initializes to `rendered`. -/
inductive PrefOp where
  | saveView (v : String)
  | loadView
  | clearView
  | saveTheme (t : String)
  | loadTheme
  | pageLoad
deriving DecidableEq, Repr

/-- State transition of one preference operation. -/
def applyPrefOp (op : PrefOp) (s : PrefState) : PrefState :=
  match op with
  | .saveView v => saveSessionPreference v s
  | .loadView => (loadSessionPreference s).2
  | .clearView => clearSessionPreference s
  | .saveTheme t => saveThemePreference t s
  | .loadTheme => s
  | .pageLoad => { s with defaultView := "rendered" }

/-- The preference states reachable by the script itself, from a fresh
session (empty or unavailable store, default `rendered`). -/
inductive PrefReachable : PrefState → Prop
  | initAvail : PrefReachable { storage := some [], defaultView := "rendered" }
  | initUnavail : PrefReachable { storage := none, defaultView := "rendered" }
  | step (op : PrefOp) (s : PrefState) :
      PrefReachable s → PrefReachable (applyPrefOp op s)

/-- The invariant backing C9: either the in-memory default is still
the fixed `rendered`, or it mirrors a valid stored view value. -/
def prefInv (s : PrefState) : Prop :=
  s.defaultView = "rendered" ∨
    (∃ m, s.storage = some m ∧ storeGet m viewPrefKey = some s.defaultView ∧
      (s.defaultView = "raw" ∨ s.defaultView = "rendered"))

theorem storeGet_cons (k2 v2 : String) (r : Store) (k : String) :
    storeGet ((k2, v2) :: r) k = if k2 = k then some v2 else storeGet r k := rfl

theorem storeGet_set_same (m : Store) (k v : String) :
    storeGet (storeSet m k v) k = some v := by
  unfold storeSet
  rw [storeGet_cons, if_pos rfl]

theorem storeGet_filter_ne (m : Store) (k k1 : String) (h : ¬ k1 = k) :
    storeGet (m.filter (fun p => !(p.1 = k1))) k = storeGet m k := by
  induction m with
  | nil => rfl
  | cons p r ih =>
    obtain ⟨k2, v2⟩ := p
    by_cases hp : k2 = k1
    · rw [List.filter_cons_of_neg (by simp [hp]), ih, storeGet_cons,
        if_neg (by rw [hp]; exact h)]
    · rw [List.filter_cons_of_pos (by simp [hp]), storeGet_cons, storeGet_cons]
      by_cases hk2 : k2 = k
      · rw [if_pos hk2, if_pos hk2]
      · rw [if_neg hk2, if_neg hk2, ih]

theorem storeGet_set_other (m : Store) (k k1 v : String) (h : ¬ k1 = k) :
    storeGet (storeSet m k1 v) k = storeGet m k := by
  unfold storeSet
  rw [storeGet_cons, if_neg h]
  exact storeGet_filter_ne m k k1 h

theorem prefInv_reachable : ∀ s, PrefReachable s → prefInv s := by
  intro s h
  induction h with
  | initAvail => exact Or.inl rfl
  | initUnavail => exact Or.inl rfl
  | step op s1 h1 ih =>
    cases op with
    | saveView v =>
      unfold applyPrefOp saveSessionPreference
      dsimp only
      split_ifs with hv
      · cases hst : s1.storage with
        | none => exact ih
        | some m =>
          exact Or.inr ⟨storeSet m viewPrefKey v, rfl,
            storeGet_set_same m viewPrefKey v, hv⟩
      · exact ih
    | loadView =>
      unfold applyPrefOp loadSessionPreference
      dsimp only
      cases hst : s1.storage with
      | none => exact ih
      | some m =>
        dsimp only
        cases hget : storeGet m viewPrefKey with
        | none => exact ih
        | some p =>
          dsimp only
          split_ifs with hp
          · exact Or.inr ⟨m, rfl, by rw [hget], hp⟩
          · exact ih
    | clearView =>
      unfold applyPrefOp clearSessionPreference
      dsimp only
      cases hst : s1.storage with
      | none => exact ih
      | some m => exact Or.inl rfl
    | saveTheme t =>
      unfold applyPrefOp saveThemePreference
      dsimp only
      cases hst : s1.storage with
      | none => exact ih
      | some m =>
        rcases ih with hdef | ⟨m0, hm0, hget, hval⟩
        · exact Or.inl hdef
        · rw [hst] at hm0
          have hmm : m0 = m := (Option.some.inj hm0).symm
          refine Or.inr ⟨storeSet m themePrefKey t, rfl, ?_, hval⟩
          rw [storeGet_set_other m viewPrefKey themePrefKey t (by decide), ← hmm]
          exact hget
    | loadTheme => exact ih
    | pageLoad => exact Or.inl rfl

/-- C9.  Over every state the script itself can reach: the view
preference loader returns the stored value exactly when it is `raw` or
`rendered` and falls back to the fixed default `rendered` for every
missing, invalid or unreadable stored value; the theme loader returns
`white` for every missing or invalid stored theme; and both save
operations are no-ops (never throwing) when the session store is
unavailable. -/
theorem claim9_preference_validation :
    (∀ s : PrefState, PrefReachable s →
      (loadSessionPreference s).1 =
        (match s.storage.bind (fun m => storeGet m viewPrefKey) with
         | some v => if v = "raw" ∨ v = "rendered" then v else "rendered"
         | none => "rendered")) ∧
    (∀ s : PrefState,
      (s.storage.bind (fun m => storeGet m themePrefKey) = none ∨
       (∃ t, s.storage.bind (fun m => storeGet m themePrefKey) = some t ∧
         ¬ (¬ t = "" ∧ themeKeys.contains (normalizeThemeKey t) = true))) →
      loadThemePreference s = "white") ∧
    (∀ (v : String) (s : PrefState), s.storage = none →
      saveSessionPreference v s = s) ∧
    (∀ (t : String) (s : PrefState), s.storage = none →
      saveThemePreference t s = s) := by
  refine ⟨?_, ?_, ?_, ?_⟩
  · intro s hr
    have hinv := prefInv_reachable s hr
    unfold loadSessionPreference
    cases hst : s.storage with
    | none =>
      dsimp only [Option.bind]
      rcases hinv with hdef | ⟨m0, hm0, -, -⟩
      · exact hdef
      · rw [hst] at hm0
        exact Option.noConfusion hm0
    | some m =>
      dsimp only [Option.bind]
      cases hget : storeGet m viewPrefKey with
      | none =>
        dsimp only
        rcases hinv with hdef | ⟨m0, hm0, hg0, -⟩
        · exact hdef
        · rw [hst] at hm0
          have hmm : m0 = m := (Option.some.inj hm0).symm
          rw [hmm, hget] at hg0
          exact Option.noConfusion hg0
      | some p =>
        dsimp only
        split_ifs with hp
        · rfl
        · rcases hinv with hdef | ⟨m0, hm0, hg0, hval0⟩
          · exact hdef
          · rw [hst] at hm0
            have hmm : m0 = m := (Option.some.inj hm0).symm
            rw [hmm, hget] at hg0
            have hpd : s.defaultView = p := (Option.some.inj hg0.symm : _)
            rw [hpd] at hval0
            exact absurd hval0 hp
  · intro s hbad
    unfold loadThemePreference
    cases hst : s.storage with
    | none => rfl
    | some m =>
      dsimp only
      cases hget : storeGet m themePrefKey with
      | none => rfl
      | some t =>
        dsimp only
        rcases hbad with hnone | ⟨t0, ht0, hinval⟩
        · rw [hst] at hnone
          have hnone2 : storeGet m themePrefKey = none := hnone
          rw [hget] at hnone2
          exact Option.noConfusion hnone2
        · rw [hst] at ht0
          have ht02 : storeGet m themePrefKey = some t0 := ht0
          rw [hget] at ht02
          have htt : t = t0 := Option.some.inj ht02
          rw [if_neg (htt ▸ hinval)]
  · intro v s h
    unfold saveSessionPreference
    split_ifs with hv
    · rw [h]
    · rfl
  · intro t s h
    unfold saveThemePreference
    rw [h]

/-- Closed-form instance of `claim9_preference_validation`: a fresh
available session yields the default `rendered`; a stored garbage
theme yields `white`; saves with unavailable storage are no-ops. -/
theorem claim9_witness :
    (loadSessionPreference { storage := some [], defaultView := "rendered" }).1 =
      "rendered" ∧
    loadThemePreference
      { storage := some [(themePrefKey, "neon")], defaultView := "rendered" } =
      "white" ∧
    saveSessionPreference "raw" { storage := none, defaultView := "rendered" } =
      { storage := none, defaultView := "rendered" } ∧
    saveThemePreference "paper" { storage := none, defaultView := "rendered" } =
      { storage := none, defaultView := "rendered" } :=
  ⟨claim9_preference_validation.1 _ PrefReachable.initAvail,
   claim9_preference_validation.2.1 _ (Or.inr ⟨"neon", rfl, by decide⟩),
   claim9_preference_validation.2.2.1 "raw" _ rfl,
   claim9_preference_validation.2.2.2 "paper" _ rfl⟩

end SlackMD
